import Mathlib

/-!
Shallow embedding of `src/data/loader.py` (class `DataLoader`): the
data-source reader `load_all` and the panel builder
`create_merged_monthly_dataset`.

Tables are lists of typed rows (one structure per input file).  Dates and
year-months are modelled as naturals ordered chronologically; the market
value column is modelled as an integer count of (thousands of) currency
units, and the turnover ratio as a rational that is only carried, never
computed on.  `pd.merge(..., how='left')` is modelled by `leftMerge`: each
left row, in order, is paired with every matching right row (in right
order), or with a null payload when no right row matches.  `sort_values`
is modelled as a stable sort (`List.insertionSort`); for the multi-column
sort at line 127 pandas guarantees stability (lexsort), while for the
single-column sort at line 109 the tie order among equal dates is left
unspecified by pandas' default quicksort.  String comparison is
code-point lexicographic, as in pandas.
-/

namespace Loader

/-- Code-point lexicographic strict order on character lists (the order
pandas uses to sort a string column). -/
def charsLt : List Char → List Char → Bool
  | _, [] => false
  | [], _ :: _ => true
  | a :: as, b :: bs => decide (a < b) || (a == b && charsLt as bs)

/-- Code-point lexicographic weak order on character lists. -/
def charsLe : List Char → List Char → Bool
  | [], _ => true
  | _ :: _, [] => false
  | a :: as, b :: bs => decide (a < b) || (a == b && charsLe as bs)

/-- Strict lexicographic order on strings. -/
def strLt (a b : String) : Bool := charsLt a.data b.data

/-- Weak lexicographic order on strings. -/
def strLe (a b : String) : Bool := charsLe a.data b.data

/-- A row of `monthly_trade.txt` (the Monthly Trade Record): security code
(string, leading zeros preserved), year-month, market value in thousands. -/
structure MonthlyTradeRow where
  Stkcd : String
  Trdmnt : Nat
  Msmvosd : Int
deriving DecidableEq, Repr

/-- A row of `turnover_monthly.txt`: security code, year-month, turnover. -/
structure TurnoverRow where
  Stkcd : String
  Trdmnt : Nat
  ToverOsM : ℚ
deriving DecidableEq, Repr

/-- A row of `csrc2012_industry.txt`: security code, industry code (string),
industry name, effective/listing date. -/
structure IndustryRow where
  Stkcd : String
  Nnindcd : String
  Nnindnme : String
  Listdt : Nat
deriving DecidableEq, Repr

/-- A row of `basic_info.txt`: security code, market type, listing date. -/
structure BasicRow where
  Stkcd : String
  Markettype : Int
  Listdt : Nat
deriving DecidableEq, Repr

/-- A row of `daily_trade.txt`: security code, trade date, closing price. -/
structure DailyRow where
  Stkcd : String
  Trddt : Nat
  Clsprc : ℚ
deriving DecidableEq, Repr

/-- The mapping returned by `load_all`: one table per dataset name. -/
structure DataDict where
  basic_info : List BasicRow
  industry : List IndustryRow
  daily_trade : List DailyRow
  monthly_trade : List MonthlyTradeRow
  turnover : List TurnoverRow
deriving DecidableEq, Repr

/-- Row after step 1 (turnover merged onto monthly trade). -/
structure Row1 where
  Stkcd : String
  Trdmnt : Nat
  Msmvosd : Int
  ToverOsM : Option ℚ
deriving DecidableEq, Repr

/-- Row after step 2 (industry code/name merged on). -/
structure Row2 where
  Stkcd : String
  Trdmnt : Nat
  Msmvosd : Int
  ToverOsM : Option ℚ
  Nnindcd : Option String
  Nnindnme : Option String
deriving DecidableEq, Repr

/-- Row of the final merged monthly panel (after step 3). -/
structure PanelRow where
  Stkcd : String
  Trdmnt : Nat
  Msmvosd : Int
  ToverOsM : Option ℚ
  Nnindcd : Option String
  Nnindnme : Option String
  Markettype : Option Int
  Listdt : Option Nat
deriving DecidableEq, Repr

/-- `pd.merge(left, right, how='left')`: every left row is kept in order;
a left row with matching right rows produces one output row per match (in
right order), and a left row with no match produces a single output row
with null right-hand fields. -/
def leftMerge {α β γ : Type} [DecidableEq β] (keyEq : α → β → Bool) (combine : α → β → γ)
    (noMatch : α → γ) (left : List α) (right : List β) : List γ :=
  left.flatMap fun a =>
    if right.filter (keyEq a) = [] then [noMatch a]
    else (right.filter (keyEq a)).map (combine a)

/-- Step 1 of `create_merged_monthly_dataset` (lines 100-105): left join of
monthly trade with `turnover[['Stkcd', 'Trdmnt', 'ToverOsM']]` on
`['Stkcd', 'Trdmnt']`. -/
def mergeTurnover (monthly : List MonthlyTradeRow) (turnover : List TurnoverRow) :
    List Row1 :=
  leftMerge (fun m t => m.Stkcd == t.Stkcd && m.Trdmnt == t.Trdmnt)
    (fun m t => ⟨m.Stkcd, m.Trdmnt, m.Msmvosd, some t.ToverOsM⟩)
    (fun m => ⟨m.Stkcd, m.Trdmnt, m.Msmvosd, none⟩)
    monthly turnover

/-- The date order used by `industry.sort_values('Listdt')`. -/
def industryDateLE (a b : IndustryRow) : Prop := a.Listdt ≤ b.Listdt

instance : DecidableRel industryDateLE := fun a b => by
  unfold industryDateLE; infer_instance

/-- `industry.sort_values('Listdt')` (line 109): sort by effective date,
ascending. -/
def sortIndustry (industry : List IndustryRow) : List IndustryRow :=
  industry.insertionSort industryDateLE

/-- The string order used by `groupby` to sort group keys. -/
def stringLE (a b : String) : Prop := strLe a b = true

instance : DecidableRel stringLE := fun a b => by
  unfold stringLE; infer_instance

/-- `industry.sort_values('Listdt').groupby('Stkcd').last().reset_index()`
(line 109): group keys ascending (pandas `groupby` sorts keys), and for
each key the last row of its group in the date-sorted frame. -/
def latestIndustry (industry : List IndustryRow) : List IndustryRow :=
  (((industry.map (fun r => r.Stkcd)).dedup).insertionSort stringLE).filterMap
    fun s => ((sortIndustry industry).filter (fun r => r.Stkcd == s)).getLast?

/-- Step 2 (lines 110-115): left join with
`latest_industry[['Stkcd', 'Nnindcd', 'Nnindnme']]` on `'Stkcd'`. -/
def mergeIndustry (rows : List Row1) (industry : List IndustryRow) : List Row2 :=
  leftMerge (fun (r : Row1) (i : IndustryRow) => r.Stkcd == i.Stkcd)
    (fun r i => ⟨r.Stkcd, r.Trdmnt, r.Msmvosd, r.ToverOsM, some i.Nnindcd, some i.Nnindnme⟩)
    (fun r => ⟨r.Stkcd, r.Trdmnt, r.Msmvosd, r.ToverOsM, none, none⟩)
    rows (latestIndustry industry)

/-- Step 3 (lines 118-123): left join with
`basic[['Stkcd', 'Markettype', 'Listdt']]` on `'Stkcd'`. -/
def mergeBasic (rows : List Row2) (basic : List BasicRow) : List PanelRow :=
  leftMerge (fun (r : Row2) (b : BasicRow) => r.Stkcd == b.Stkcd)
    (fun r b => ⟨r.Stkcd, r.Trdmnt, r.Msmvosd, r.ToverOsM, r.Nnindcd, r.Nnindnme,
      some b.Markettype, some b.Listdt⟩)
    (fun r => ⟨r.Stkcd, r.Trdmnt, r.Msmvosd, r.ToverOsM, r.Nnindcd, r.Nnindnme, none, none⟩)
    rows basic

/-- The `(Stkcd, Trdmnt)` ordering used by the final sort. -/
def panelLE (a b : PanelRow) : Prop :=
  strLt a.Stkcd b.Stkcd = true ∨ (a.Stkcd = b.Stkcd ∧ a.Trdmnt ≤ b.Trdmnt)

instance : DecidableRel panelLE := fun a b => by
  unfold panelLE; infer_instance

/-- Step 4 (line 127): `monthly_merged.sort_values(['Stkcd', 'Trdmnt'])`,
a stable ascending sort on the pair (pandas uses a stable lexsort for
multi-column sorts). -/
def sortPanel (rows : List PanelRow) : List PanelRow :=
  rows.insertionSort panelLE

/-- The merged table just before the market-value rescale: steps 1-4. -/
def mergedBeforeScale (d : DataDict) : List PanelRow :=
  sortPanel (mergeBasic (mergeIndustry (mergeTurnover d.monthly_trade d.turnover)
    d.industry) d.basic_info)

/-- Step 5 (line 130): `monthly_merged['Msmvosd'] = monthly_merged['Msmvosd'] * 1000`. -/
def scaleRow (r : PanelRow) : PanelRow :=
  { r with Msmvosd := r.Msmvosd * 1000 }

/-- `DataLoader.create_merged_monthly_dataset` (the spec's
`buildMonthlyPanel`), lines 92-135: merge turnover, latest industry and
basic info onto the monthly trade table, sort by `(Stkcd, Trdmnt)`, then
rescale the market value from thousands to base units. -/
def create_merged_monthly_dataset (d : DataDict) : List PanelRow :=
  (mergedBeforeScale d).map scaleRow

/-! ### The data source reader `load_all` (lines 19-80) -/

/-- The raw-data directory: for each of the five expected file names, the
parsed table when the file is present, `none` when it is absent.  Parsing
mechanics are out of scope (the spec treats them as an external
collaborator); what is modelled is presence/absence and the resulting
typed table. -/
structure FileSystem where
  basic_info : Option (List BasicRow)
  csrc2012_industry : Option (List IndustryRow)
  daily_trade : Option (List DailyRow)
  monthly_trade : Option (List MonthlyTradeRow)
  turnover_monthly : Option (List TurnoverRow)
deriving DecidableEq

/-- Errors raised by the reader; `fileNotFound` models Python's
`FileNotFoundError` raised by `pd.read_csv` on a missing path. -/
inductive LoadError where
  | fileNotFound (filename : String)
deriving DecidableEq, Repr

/-- One `pd.read_csv` call: returns the parsed table, or raises
`FileNotFoundError` when the file is absent.  `load_all` wraps no
try/except around it, so the error propagates. -/
def readCsvFile {α : Type} (filename : String) (contents : Option α) :
    Except LoadError α :=
  match contents with
  | some t => Except.ok t
  | none => Except.error (LoadError.fileNotFound filename)

/-- `DataLoader.load_all` (lines 19-80): read the five files in source
order; any missing file aborts the whole load with `FileNotFoundError`;
on success the returned mapping has exactly the five dataset keys. -/
def load_all (fs : FileSystem) : Except LoadError DataDict := do
  let basic_info ← readCsvFile "basic_info.txt" fs.basic_info
  let industry ← readCsvFile "csrc2012_industry.txt" fs.csrc2012_industry
  let daily_trade ← readCsvFile "daily_trade.txt" fs.daily_trade
  let monthly_trade ← readCsvFile "monthly_trade.txt" fs.monthly_trade
  let turnover ← readCsvFile "turnover_monthly.txt" fs.turnover_monthly
  return { basic_info := basic_info, industry := industry, daily_trade := daily_trade,
           monthly_trade := monthly_trade, turnover := turnover }

/-! ### Cell-level dtype handling in `load_all` -/

/-- A parsed csv cell: a string kept verbatim, or a number inferred by the
parser. -/
inductive Cell where
  | str (s : String)
  | num (n : Int)
deriving DecidableEq, Repr

/-- pandas' default inference for a cell token when the column has no
declared dtype: digit tokens become numbers (dropping leading zeros),
anything else stays a string. -/
def inferCell (token : String) : Cell :=
  match token.toInt? with
  | some n => Cell.num n
  | none => Cell.str token

/-- `pd.read_csv` handling of one cell: a column listed in the `dtype`
mapping as `str` keeps its token verbatim; otherwise the type is
inferred. -/
def readCsvCell (declaredStr : Bool) (token : String) : Cell :=
  if declaredStr then Cell.str token else inferCell token

/-- The loader passes `dtype={'Stkcd': str}` for all five files
(lines 32, 41, 50, 60, 70), so every `Stkcd` cell is read verbatim. -/
def loadStkcdCell (token : String) : Cell := readCsvCell true token

/-- The loader passes `dtype={..., 'Nnindcd': str}` for the industry file
(line 41), so every industry-code cell is read verbatim. -/
def loadNnindcdCell (token : String) : Cell := readCsvCell true token

/-! ### Heap model of `create_merged_monthly_dataset`

To state the no-input-mutation property, the builder is re-run as a heap
transformer: every pandas expression that produces a new frame
(`DataFrame.copy`, `pd.merge`, `sort_values`, the projections) allocates a
fresh heap cell, and the single in-place column assignment at line 130
writes through the reference of the frame it targets.  The five input
tables of the data dict sit at references 0-4. -/

/-- A pandas DataFrame value living on the heap. -/
inductive Frame where
  | basicT (rows : List BasicRow)
  | industryT (rows : List IndustryRow)
  | dailyT (rows : List DailyRow)
  | monthlyT (rows : List MonthlyTradeRow)
  | turnoverT (rows : List TurnoverRow)
  | row1T (rows : List Row1)
  | row2T (rows : List Row2)
  | panelT (rows : List PanelRow)
deriving DecidableEq

/-- The heap: a cell per allocated frame, addressed by its index. -/
abbrev Heap := List Frame

/-- Allocate a fresh frame, returning the new heap and the reference. -/
def heapAlloc (h : Heap) (f : Frame) : Heap × Nat := (h ++ [f], h.length)

/-- The heap on entry to the builder: the five tables of the supplied data
dict, at references 0-4. -/
def initHeap (d : DataDict) : Heap :=
  [Frame.basicT d.basic_info, Frame.industryT d.industry, Frame.dailyT d.daily_trade,
   Frame.monthlyT d.monthly_trade, Frame.turnoverT d.turnover]

/-- `create_merged_monthly_dataset` as a heap transformer: returns the
final heap together with the reference of the frame holding the result.
Each allocation is tagged with the source line it models; the only write
to an existing cell is the column assignment of line 130, through the
reference freshly produced by the `sort_values` of line 127. -/
def runCreateMerged (d : DataDict) : Heap × Nat :=
  let h0 := initHeap d
  let (h1, _rMonthly) := heapAlloc h0 (Frame.monthlyT d.monthly_trade)
  let (h2, _rTurnover) := heapAlloc h1 (Frame.turnoverT d.turnover)
  let (h3, _rIndustry) := heapAlloc h2 (Frame.industryT d.industry)
  let (h4, _rBasic) := heapAlloc h3 (Frame.basicT d.basic_info)
  let m1 := mergeTurnover d.monthly_trade d.turnover
  let (h5, _r1) := heapAlloc h4 (Frame.row1T m1)
  let (h6, _rLatest) := heapAlloc h5 (Frame.industryT (latestIndustry d.industry))
  let m2 := mergeIndustry m1 d.industry
  let (h7, _r2) := heapAlloc h6 (Frame.row2T m2)
  let m3 := mergeBasic m2 d.basic_info
  let (h8, _r3) := heapAlloc h7 (Frame.panelT m3)
  let (h9, rSorted) := heapAlloc h8 (Frame.panelT (sortPanel m3))
  let h10 := h9.set rSorted (Frame.panelT ((sortPanel m3).map scaleRow))
  (h10, rSorted)

/-! ### Concrete sample data -/

/-- A small concrete data dictionary: two securities, one of which has a
changed industry classification and one of which lacks a turnover row. -/
def sampleD : DataDict where
  basic_info := [⟨"000001", 4, 19910403⟩, ⟨"600000", 1, 19991110⟩]
  industry := [⟨"000001", "J66", "bank", 20100101⟩, ⟨"000001", "J67", "fin", 20200101⟩,
    ⟨"600000", "J66", "bank", 20120101⟩]
  daily_trade := [⟨"000001", 20210301, 10⟩]
  monthly_trade := [⟨"600000", 202301, 800⟩, ⟨"000001", 202103, 500⟩]
  turnover := [⟨"000001", 202103, 3⟩]

/-- The panel row `create_merged_monthly_dataset sampleD` produces for
security `000001`. -/
def samplePanelRow0 : PanelRow :=
  ⟨"000001", 202103, 500000, some 3, some "J67", some "fin", some 4, some 19910403⟩

/-- The later (2020) of the two industry rows of security `000001` in
`sampleD`. -/
def sampleJ67 : IndustryRow := ⟨"000001", "J67", "fin", 20200101⟩

/-- A data dictionary whose turnover table duplicates the key
`("000001", 2023-01)`: the turnover join fans out. -/
def dupTurnoverD : DataDict where
  basic_info := []
  industry := []
  daily_trade := []
  monthly_trade := [⟨"000001", 202301, 5⟩]
  turnover := [⟨"000001", 202301, 1⟩, ⟨"000001", 202301, 2⟩]

/-- A raw-data directory holding all five expected files, with the
`sampleD` contents. -/
def sampleFS : FileSystem :=
  ⟨some sampleD.basic_info, some sampleD.industry, some sampleD.daily_trade,
   some sampleD.monthly_trade, some sampleD.turnover⟩

/-! ### The lexicographic string order is transitive and connex -/

theorem charsLt_nil_right (x : List Char) : charsLt x [] = false := by
  cases x <;> rfl

theorem charsLt_trans : ∀ x y z : List Char,
    charsLt x y = true → charsLt y z = true → charsLt x z = true
  | x, [], _, h1, _ => by rw [charsLt_nil_right x] at h1; cases h1
  | _, y :: ys, [], _, h2 => by rw [charsLt_nil_right (y :: ys)] at h2; cases h2
  | [], _ :: _, _ :: _, _, _ => rfl
  | a :: as, b :: bs, c :: cs, h1, h2 => by
    simp only [charsLt, Bool.or_eq_true, decide_eq_true_eq, Bool.and_eq_true,
      beq_iff_eq] at h1 h2 ⊢
    rcases h1 with h1 | ⟨rfl, h1⟩
    · rcases h2 with h2 | ⟨rfl, _⟩
      · exact Or.inl (lt_trans h1 h2)
      · exact Or.inl h1
    · rcases h2 with h2 | ⟨rfl, h2⟩
      · exact Or.inl h2
      · exact Or.inr ⟨rfl, charsLt_trans as bs cs h1 h2⟩

theorem charsLt_connex : ∀ x y : List Char,
    charsLt x y = true ∨ x = y ∨ charsLt y x = true
  | [], [] => Or.inr (Or.inl rfl)
  | [], _ :: _ => Or.inl rfl
  | _ :: _, [] => Or.inr (Or.inr rfl)
  | a :: as, b :: bs => by
    simp only [charsLt, Bool.or_eq_true, decide_eq_true_eq, Bool.and_eq_true,
      beq_iff_eq, List.cons.injEq]
    rcases lt_trichotomy a b with h | rfl | h
    · exact Or.inl (Or.inl h)
    · rcases charsLt_connex as bs with h | h | h
      · exact Or.inl (Or.inr ⟨rfl, h⟩)
      · exact Or.inr (Or.inl ⟨rfl, h⟩)
      · exact Or.inr (Or.inr (Or.inr ⟨rfl, h⟩))
    · exact Or.inr (Or.inr (Or.inl h))

theorem strLt_trans {a b c : String} (h1 : strLt a b = true) (h2 : strLt b c = true) :
    strLt a c = true :=
  charsLt_trans _ _ _ h1 h2

theorem strLt_connex (a b : String) : strLt a b = true ∨ a = b ∨ strLt b a = true := by
  rcases charsLt_connex a.data b.data with h | h | h
  · exact Or.inl h
  · exact Or.inr (Or.inl (by cases a; cases b; cases h; rfl))
  · exact Or.inr (Or.inr h)

instance : IsTotal IndustryRow industryDateLE :=
  ⟨fun a b => Nat.le_total a.Listdt b.Listdt⟩

instance : IsTrans IndustryRow industryDateLE :=
  ⟨fun _ _ _ h1 h2 => Nat.le_trans h1 h2⟩

instance : IsTotal PanelRow panelLE := by
  constructor
  intro a b
  rcases strLt_connex a.Stkcd b.Stkcd with h | h | h
  · exact Or.inl (Or.inl h)
  · rcases Nat.le_total a.Trdmnt b.Trdmnt with h' | h'
    · exact Or.inl (Or.inr ⟨h, h'⟩)
    · exact Or.inr (Or.inr ⟨h.symm, h'⟩)
  · exact Or.inr (Or.inl h)

instance : IsTrans PanelRow panelLE := by
  constructor
  intro a b c h1 h2
  rcases h1 with h1 | ⟨e1, l1⟩
  · rcases h2 with h2 | ⟨e2, _⟩
    · exact Or.inl (strLt_trans h1 h2)
    · exact Or.inl (e2 ▸ h1)
  · rcases h2 with h2 | ⟨e2, l2⟩
    · exact Or.inl (e1 ▸ h2)
    · exact Or.inr ⟨e1.trans e2, Nat.le_trans l1 l2⟩

/-! ### Lemmas about `leftMerge` -/

theorem mem_leftMerge {α β γ : Type} [DecidableEq β] {keyEq : α → β → Bool}
    {combine : α → β → γ} {noMatch : α → γ} {left : List α} {right : List β} {c : γ} :
    c ∈ leftMerge keyEq combine noMatch left right ↔
      ∃ a ∈ left, (right.filter (keyEq a) = [] ∧ c = noMatch a) ∨
        ∃ b ∈ right.filter (keyEq a), c = combine a b := by
  unfold leftMerge
  rw [List.mem_flatMap]
  constructor
  · rintro ⟨a, ha, hc⟩
    refine ⟨a, ha, ?_⟩
    by_cases hf : right.filter (keyEq a) = []
    · rw [if_pos hf] at hc
      exact Or.inl ⟨hf, List.mem_singleton.mp hc⟩
    · rw [if_neg hf] at hc
      obtain ⟨b, hb, rfl⟩ := List.mem_map.mp hc
      exact Or.inr ⟨b, hb, rfl⟩
  · rintro ⟨a, ha, ⟨hf, rfl⟩ | ⟨b, hb, rfl⟩⟩
    · exact ⟨a, ha, by rw [if_pos hf]; exact List.mem_singleton.mpr rfl⟩
    · refine ⟨a, ha, ?_⟩
      rw [if_neg (by rintro h; rw [h] at hb; cases hb)]
      exact List.mem_map_of_mem _ hb

/-- Every left row contributes at least one output row: either the
null-padded row, or its combination with some matching right row. -/
theorem leftMerge_forward {α β γ : Type} [DecidableEq β] {keyEq : α → β → Bool}
    {combine : α → β → γ} {noMatch : α → γ} {left : List α} {right : List β} {a : α}
    (ha : a ∈ left) :
    ∃ c ∈ leftMerge keyEq combine noMatch left right,
      c = noMatch a ∨ ∃ b, c = combine a b := by
  by_cases hf : right.filter (keyEq a) = []
  · exact ⟨noMatch a, mem_leftMerge.mpr ⟨a, ha, Or.inl ⟨hf, rfl⟩⟩, Or.inl rfl⟩
  · obtain ⟨b, hb⟩ := List.exists_mem_of_ne_nil _ hf
    exact ⟨combine a b, mem_leftMerge.mpr ⟨a, ha, Or.inr ⟨b, hb, rfl⟩⟩, Or.inr ⟨b, rfl⟩⟩

/-- When no left row has a match, `leftMerge` keeps the padded left row of
a left row whose match list is empty. -/
theorem leftMerge_noMatch_mem {α β γ : Type} [DecidableEq β] {keyEq : α → β → Bool}
    {combine : α → β → γ} {noMatch : α → γ} {left : List α} {right : List β} {a : α}
    (ha : a ∈ left) (hf : right.filter (keyEq a) = []) :
    noMatch a ∈ leftMerge keyEq combine noMatch left right :=
  mem_leftMerge.mpr ⟨a, ha, Or.inl ⟨hf, rfl⟩⟩

/-- When every left row has at most one match, the join is row-count
preserving. -/
theorem length_leftMerge {α β γ : Type} [DecidableEq β] {keyEq : α → β → Bool}
    {combine : α → β → γ} {noMatch : α → γ} {left : List α} {right : List β}
    (h : ∀ a ∈ left, (right.filter (keyEq a)).length ≤ 1) :
    (leftMerge keyEq combine noMatch left right).length = left.length := by
  induction left with
  | nil => rfl
  | cons a t ih =>
    rw [leftMerge, List.flatMap_cons, List.length_append]
    rw [leftMerge] at ih
    rw [ih (fun x hx => h x (List.mem_cons_of_mem a hx))]
    by_cases hf : right.filter (keyEq a) = []
    · rw [if_pos hf]
      simp only [List.length_singleton, List.length_cons, List.length_nil]
      omega
    · rw [if_neg hf, List.length_map]
      have h1 : (right.filter (keyEq a)).length ≤ 1 := h a (List.mem_cons_self a t)
      have h2 : (right.filter (keyEq a)).length ≠ 0 := by
        simpa [List.length_eq_zero] using hf
      simp only [List.length_cons]
      omega

/-! ### Stability of `insertionSort` on equivalence classes -/

theorem filter_orderedInsert_neg {α : Type} (r : α → α → Prop) [DecidableRel r]
    (p : α → Bool) (a : α) (ha : p a = false) :
    ∀ l : List α, ((l.orderedInsert r a).filter p) = l.filter p
  | [] => by simp [List.orderedInsert, ha]
  | b :: t => by
    by_cases h : r a b
    · simp [List.orderedInsert, if_pos h, ha]
    · simp only [List.orderedInsert, if_neg h, List.filter_cons]
      rw [filter_orderedInsert_neg r p a ha t]

theorem filter_orderedInsert_pos {α : Type} (r : α → α → Prop) [DecidableRel r]
    (p : α → Bool) (a : α) (ha : p a = true) (hmin : ∀ b, p b = true → r a b) :
    ∀ l : List α, ((l.orderedInsert r a).filter p) = a :: l.filter p
  | [] => by simp [List.orderedInsert, ha]
  | b :: t => by
    by_cases h : r a b
    · simp [List.orderedInsert, if_pos h, ha]
    · have hb : p b = false := by
        cases hpb : p b
        · rfl
        · exact absurd (hmin b hpb) h
      simp only [List.orderedInsert, if_neg h, List.filter_cons, hb, Bool.false_eq_true,
        if_false, cond_false]
      rw [filter_orderedInsert_pos r p a ha hmin t]

/-- A stable sort does not reorder the rows inside one equivalence class
of the comparator: filtering any class commutes with sorting. -/
theorem filter_insertionSort {α : Type} (r : α → α → Prop) [DecidableRel r]
    (p : α → Bool) (hp : ∀ a b, p a = true → p b = true → r a b) :
    ∀ l : List α, ((l.insertionSort r).filter p) = l.filter p
  | [] => rfl
  | a :: t => by
    simp only [List.insertionSort, List.filter_cons]
    cases ha : p a
    · rw [filter_orderedInsert_neg r p a ha, filter_insertionSort r p hp t]
      simp
    · rw [filter_orderedInsert_pos r p a ha (fun b hb => hp a b ha hb),
        filter_insertionSort r p hp t]
      simp

/-! ### Lemmas about `latestIndustry` -/

/-- A list of length at most one that contains `a` is exactly `[a]`. -/
theorem eq_singleton_of_length_le {α : Type} {l : List α} {a : α}
    (h1 : l.length ≤ 1) (h2 : a ∈ l) : l = [a] := by
  cases l with
  | nil => cases h2
  | cons x t =>
    cases t with
    | nil => rcases List.mem_singleton.mp h2 with rfl; rfl
    | cons y u => simp at h1

/-- The group-last row selected for key `s` carries key `s`. -/
theorem getLast?_filter_stkcd {l : List IndustryRow} {s : String} {r : IndustryRow}
    (h : (l.filter (fun x => x.Stkcd == s)).getLast? = some r) : r.Stkcd = s := by
  have hmem := List.mem_of_getLast?_eq_some h
  simpa using (List.mem_filter.mp hmem).2

/-- Rows selected by `latestIndustry` come from the industry table. -/
theorem latestIndustry_subset {industry : List IndustryRow} {r : IndustryRow}
    (hr : r ∈ latestIndustry industry) : r ∈ industry := by
  unfold latestIndustry at hr
  obtain ⟨s, -, hg⟩ := List.mem_filterMap.mp hr
  have hmem := List.mem_of_getLast?_eq_some hg
  exact (List.mem_insertionSort _).mp (List.mem_filter.mp hmem).1

/-- A `filterMap` over distinct keys, whose function returns (at most) the
representative of its key, has at most one row per key. -/
theorem filter_filterMap_length_le {κ α : Type} [BEq κ] [LawfulBEq κ]
    (g : κ → Option α) (key : α → κ) (hg : ∀ k r, g k = some r → key r = k) (s : κ) :
    ∀ keys : List κ, keys.Nodup → ((keys.filterMap g).filter (fun x => s == key x)).length ≤ 1
  | [], _ => by simp
  | k :: t, hnd => by
    have hk : k ∉ t := (List.nodup_cons.mp hnd).1
    have ht : t.Nodup := (List.nodup_cons.mp hnd).2
    cases hgk : g k with
    | none =>
      rw [List.filterMap_cons_none hgk]
      exact filter_filterMap_length_le g key hg s t ht
    | some r =>
      rw [List.filterMap_cons_some hgk, List.filter_cons]
      cases hsr : (s == key r)
      · simpa using filter_filterMap_length_le g key hg s t ht
      · have hsk : s = k := by
          have := hg k r hgk
          exact (eq_of_beq hsr).trans this
        have hnil : ((t.filterMap g).filter (fun x => s == key x)) = [] := by
          rw [List.filter_eq_nil_iff]
          intro x hx
          obtain ⟨k', hk', hgk'⟩ := List.mem_filterMap.mp hx
          have : key x = k' := hg k' x hgk'
          simp only [this, beq_iff_eq]
          intro hsk'
          exact hk (hsk ▸ hsk' ▸ hk')
        simp [hnil]

/-- `latestIndustry` holds at most one row per security code. -/
theorem latestIndustry_filter_length_le (industry : List IndustryRow) (s : String) :
    ((latestIndustry industry).filter (fun x => s == x.Stkcd)).length ≤ 1 := by
  unfold latestIndustry
  exact filter_filterMap_length_le _ (fun r => r.Stkcd)
    (fun k r h => getLast?_filter_stkcd h) s _
    ((List.perm_insertionSort stringLE _).symm.nodup (List.nodup_dedup _))

/-- In a list sorted by date that contains a strictly latest element, the
last entry is that element. -/
theorem getLast?_of_strictMax : ∀ (l : List IndustryRow) (i : IndustryRow),
    l.Pairwise industryDateLE → i ∈ l → (∀ j ∈ l, j ≠ i → j.Listdt < i.Listdt) →
    l.getLast? = some i
  | [], i, _, hi, _ => absurd hi (List.not_mem_nil i)
  | [a], i, _, hi, _ => by rcases List.mem_singleton.mp hi with rfl; rfl
  | a :: b :: t, i, hp, hi, hmax => by
    have hab : industryDateLE a b := (List.pairwise_cons.mp hp).1 b (List.mem_cons_self b t)
    have hib : i ∈ b :: t := by
      rcases List.mem_cons.mp hi with rfl | h
      · by_cases hbi : b = i
        · exact hbi ▸ List.mem_cons_self b t
        · have hlt := hmax b (List.mem_cons_of_mem i (List.mem_cons_self b t)) hbi
          unfold industryDateLE at hab
          omega
      · exact h
    rw [List.getLast?_cons_cons]
    exact getLast?_of_strictMax (b :: t) i (List.pairwise_cons.mp hp).2 hib
      (fun j hj hne => hmax j (List.mem_cons_of_mem a hj) hne)

/-- When an identifier has a strictly latest industry row, `latestIndustry`
selects exactly that row for it. -/
theorem latestIndustry_filter_eq {industry : List IndustryRow} {s : String}
    {i : IndustryRow} (hi : i ∈ industry) (hs : i.Stkcd = s)
    (hmax : ∀ j ∈ industry, j.Stkcd = s → j ≠ i → j.Listdt < i.Listdt) :
    (latestIndustry industry).filter (fun x => s == x.Stkcd) = [i] := by
  have hlast : ((sortIndustry industry).filter (fun x => x.Stkcd == s)).getLast? = some i := by
    apply getLast?_of_strictMax
    · exact ((List.sorted_insertionSort industryDateLE industry).sublist
        (List.filter_sublist _))
    · exact List.mem_filter.mpr ⟨(List.mem_insertionSort _).mpr hi, by simp [hs]⟩
    · intro j hj hne
      have hj' := List.mem_filter.mp hj
      exact hmax j ((List.mem_insertionSort _).mp hj'.1) (by simpa using hj'.2) hne
  have hskeys : s ∈ ((industry.map (fun r => r.Stkcd)).dedup).insertionSort stringLE := by
    rw [List.mem_insertionSort, List.mem_dedup, List.mem_map]
    exact ⟨i, hi, hs⟩
  have himem : i ∈ latestIndustry industry := by
    unfold latestIndustry
    exact List.mem_filterMap.mpr ⟨s, hskeys, hlast⟩
  exact eq_singleton_of_length_le (latestIndustry_filter_length_le industry s)
    (List.mem_filter.mpr ⟨himem, by simp [hs]⟩)

/-! ### Stage lemmas for the panel pipeline -/

/-- Membership in the final panel is membership in the unsorted merged
table, up to the final rescale. -/
theorem mem_create_iff {d : DataDict} {r : PanelRow} :
    r ∈ create_merged_monthly_dataset d ↔
      ∃ q ∈ mergeBasic (mergeIndustry (mergeTurnover d.monthly_trade d.turnover)
        d.industry) d.basic_info, r = scaleRow q := by
  unfold create_merged_monthly_dataset mergedBeforeScale sortPanel
  rw [List.mem_map]
  constructor
  · rintro ⟨q, hq, rfl⟩
    exact ⟨q, (List.mem_insertionSort _).mp hq, rfl⟩
  · rintro ⟨q, hq, rfl⟩
    exact ⟨q, (List.mem_insertionSort _).mpr hq, rfl⟩

/-- Every row of step 1 descends from a monthly trade row, with the trade
fields carried unchanged. -/
theorem mergeTurnover_anchor {mt : List MonthlyTradeRow} {tv : List TurnoverRow}
    {q : Row1} (hq : q ∈ mergeTurnover mt tv) :
    ∃ m ∈ mt, q.Stkcd = m.Stkcd ∧ q.Trdmnt = m.Trdmnt ∧ q.Msmvosd = m.Msmvosd := by
  obtain ⟨m, hm, hcase⟩ := mem_leftMerge.mp hq
  rcases hcase with ⟨-, rfl⟩ | ⟨b, -, rfl⟩ <;> exact ⟨m, hm, rfl, rfl, rfl⟩

/-- Every row of step 2 descends from a step-1 row, with the step-1 fields
carried unchanged. -/
theorem mergeIndustry_proj {rows : List Row1} {ind : List IndustryRow} {q : Row2}
    (hq : q ∈ mergeIndustry rows ind) :
    ∃ p ∈ rows, q.Stkcd = p.Stkcd ∧ q.Trdmnt = p.Trdmnt ∧ q.Msmvosd = p.Msmvosd ∧
      q.ToverOsM = p.ToverOsM := by
  obtain ⟨p, hp, hcase⟩ := mem_leftMerge.mp hq
  rcases hcase with ⟨-, rfl⟩ | ⟨b, -, rfl⟩ <;> exact ⟨p, hp, rfl, rfl, rfl, rfl⟩

/-- Every row of step 3 descends from a step-2 row, with the step-2 fields
carried unchanged. -/
theorem mergeBasic_proj {rows : List Row2} {basic : List BasicRow} {q : PanelRow}
    (hq : q ∈ mergeBasic rows basic) :
    ∃ p ∈ rows, q.Stkcd = p.Stkcd ∧ q.Trdmnt = p.Trdmnt ∧ q.Msmvosd = p.Msmvosd ∧
      q.ToverOsM = p.ToverOsM ∧ q.Nnindcd = p.Nnindcd ∧ q.Nnindnme = p.Nnindnme := by
  obtain ⟨p, hp, hcase⟩ := mem_leftMerge.mp hq
  rcases hcase with ⟨-, rfl⟩ | ⟨b, -, rfl⟩ <;> exact ⟨p, hp, rfl, rfl, rfl, rfl, rfl, rfl⟩

/-- Every row of the unsorted merged table descends from a monthly trade
row with the trade fields unchanged. -/
theorem mergeChain_anchor {d : DataDict} {q : PanelRow}
    (hq : q ∈ mergeBasic (mergeIndustry (mergeTurnover d.monthly_trade d.turnover)
      d.industry) d.basic_info) :
    ∃ m ∈ d.monthly_trade, q.Stkcd = m.Stkcd ∧ q.Trdmnt = m.Trdmnt ∧
      q.Msmvosd = m.Msmvosd := by
  obtain ⟨p2, hp2, e1, e2, e3, -⟩ := mergeBasic_proj hq
  obtain ⟨p1, hp1, f1, f2, f3, -⟩ := mergeIndustry_proj hp2
  obtain ⟨m, hm, g1, g2, g3⟩ := mergeTurnover_anchor hp1
  exact ⟨m, hm, e1.trans (f1.trans g1), e2.trans (f2.trans g2), e3.trans (f3.trans g3)⟩

/-- Every step-1 row survives into step 2.  The carried fields are
unchanged. -/
theorem mergeIndustry_forward {rows : List Row1} (ind : List IndustryRow) {p : Row1}
    (hp : p ∈ rows) :
    ∃ q ∈ mergeIndustry rows ind, q.Stkcd = p.Stkcd ∧ q.Trdmnt = p.Trdmnt ∧
      q.Msmvosd = p.Msmvosd ∧ q.ToverOsM = p.ToverOsM := by
  obtain ⟨q, hq, hcase⟩ := @leftMerge_forward Row1 IndustryRow Row2 _
    (fun r i => r.Stkcd == i.Stkcd)
    (fun r i => ⟨r.Stkcd, r.Trdmnt, r.Msmvosd, r.ToverOsM, some i.Nnindcd, some i.Nnindnme⟩)
    (fun r => ⟨r.Stkcd, r.Trdmnt, r.Msmvosd, r.ToverOsM, none, none⟩)
    rows (latestIndustry ind) p hp
  rcases hcase with rfl | ⟨b, rfl⟩ <;> exact ⟨_, hq, rfl, rfl, rfl, rfl⟩

/-- Every step-2 row survives into step 3.  The carried fields are
unchanged. -/
theorem mergeBasic_forward {rows : List Row2} (basic : List BasicRow) {p : Row2}
    (hp : p ∈ rows) :
    ∃ q ∈ mergeBasic rows basic, q.Stkcd = p.Stkcd ∧ q.Trdmnt = p.Trdmnt ∧
      q.Msmvosd = p.Msmvosd ∧ q.ToverOsM = p.ToverOsM := by
  obtain ⟨q, hq, hcase⟩ := @leftMerge_forward Row2 BasicRow PanelRow _
    (fun r b => r.Stkcd == b.Stkcd)
    (fun r b => ⟨r.Stkcd, r.Trdmnt, r.Msmvosd, r.ToverOsM, r.Nnindcd, r.Nnindnme,
      some b.Markettype, some b.Listdt⟩)
    (fun r => ⟨r.Stkcd, r.Trdmnt, r.Msmvosd, r.ToverOsM, r.Nnindcd, r.Nnindnme, none, none⟩)
    rows basic p hp
  rcases hcase with rfl | ⟨b, rfl⟩ <;> exact ⟨_, hq, rfl, rfl, rfl, rfl⟩

/-- Industry fields of a step-2 row: null, or copied from a row of the
industry table. -/
theorem mergeIndustry_nnind_provenance {rows : List Row1} {ind : List IndustryRow}
    {q : Row2} (hq : q ∈ mergeIndustry rows ind) :
    (q.Nnindcd = none ∧ q.Nnindnme = none) ∨
      ∃ i ∈ ind, q.Nnindcd = some i.Nnindcd ∧ q.Nnindnme = some i.Nnindnme := by
  obtain ⟨p, hp, hcase⟩ := mem_leftMerge.mp hq
  rcases hcase with ⟨-, rfl⟩ | ⟨b, hb, rfl⟩
  · exact Or.inl ⟨rfl, rfl⟩
  · exact Or.inr ⟨b, latestIndustry_subset (List.mem_filter.mp hb).1, rfl, rfl⟩

/-- When `latestIndustry` has exactly the row `i` for the key of a step-2
row, that row shows `i`'s industry code and name. -/
theorem mergeIndustry_nnind_of_unique {rows : List Row1} {ind : List IndustryRow}
    {q : Row2} {i : IndustryRow} {s : String} (hq : q ∈ mergeIndustry rows ind)
    (hs : q.Stkcd = s)
    (hfi : (latestIndustry ind).filter (fun x => s == x.Stkcd) = [i]) :
    q.Nnindcd = some i.Nnindcd ∧ q.Nnindnme = some i.Nnindnme := by
  obtain ⟨p, hp, hcase⟩ := mem_leftMerge.mp hq
  rcases hcase with ⟨hf, rfl⟩ | ⟨b, hb, rfl⟩
  · have hps : p.Stkcd = s := hs
    rw [hps] at hf
    rw [hf] at hfi
    cases hfi
  · have hps : p.Stkcd = s := hs
    rw [hps] at hb
    rw [hfi] at hb
    rcases List.mem_singleton.mp hb with rfl
    exact ⟨rfl, rfl⟩

/-- A table whose keys are pairwise distinct has at most one row per
key. -/
theorem filter_key_length_le_of_nodup {α κ : Type} [BEq κ] [LawfulBEq κ] (key : α → κ) :
    ∀ l : List α, (l.map key).Nodup → ∀ s : κ,
      (l.filter (fun x => s == key x)).length ≤ 1
  | [], _, _ => by simp
  | a :: t, hnd, s => by
    rw [List.map_cons, List.nodup_cons] at hnd
    rw [List.filter_cons]
    cases hsa : (s == key a)
    · simpa using filter_key_length_le_of_nodup key t hnd.2 s
    · have hnil : t.filter (fun x => s == key x) = [] := by
        rw [List.filter_eq_nil_iff]
        intro x hx
        simp only [beq_iff_eq]
        intro hs
        refine hnd.1 ?_
        rw [(eq_of_beq hsa).symm.trans hs]
        exact List.mem_map_of_mem key hx
      simp [hnil]

/-! ### The claims -/

/-- C2: every output row's market value equals the market value of its
anchoring monthly trade row multiplied by 1000; the scaling is applied
exactly once, as a map over the final sorted table, and every
intermediate (pre-scale) row still carries the unscaled input value. -/
theorem C2_market_value_scaled_once (d : DataDict) :
    create_merged_monthly_dataset d = (mergedBeforeScale d).map scaleRow ∧
    (∀ q ∈ mergedBeforeScale d, ∃ m ∈ d.monthly_trade,
      q.Stkcd = m.Stkcd ∧ q.Trdmnt = m.Trdmnt ∧ q.Msmvosd = m.Msmvosd) ∧
    (∀ r ∈ create_merged_monthly_dataset d, ∃ m ∈ d.monthly_trade,
      r.Stkcd = m.Stkcd ∧ r.Trdmnt = m.Trdmnt ∧ r.Msmvosd = m.Msmvosd * 1000) := by
  refine ⟨rfl, ?_, ?_⟩
  · intro q hq
    unfold mergedBeforeScale sortPanel at hq
    exact mergeChain_anchor ((List.mem_insertionSort _).mp hq)
  · intro r hr
    obtain ⟨q, hq, rfl⟩ := mem_create_iff.mp hr
    obtain ⟨m, hm, e1, e2, e3⟩ := mergeChain_anchor hq
    refine ⟨m, hm, e1, e2, ?_⟩
    show q.Msmvosd * 1000 = m.Msmvosd * 1000
    rw [e3]

/-- Witness for C2 at `sampleD` and its first output row. -/
theorem C2_market_value_scaled_once_witness :
    ∃ m ∈ sampleD.monthly_trade, samplePanelRow0.Stkcd = m.Stkcd ∧
      samplePanelRow0.Trdmnt = m.Trdmnt ∧ samplePanelRow0.Msmvosd = m.Msmvosd * 1000 :=
  (C2_market_value_scaled_once sampleD).2.2 samplePanelRow0 (by decide)

/-- C4: a monthly trade row whose (identifier, year-month) key matches no
turnover row is still present in the output, with a null turnover. -/
theorem C4_left_join_null_safety (d : DataDict) (m : MonthlyTradeRow)
    (hm : m ∈ d.monthly_trade)
    (hno : d.turnover.filter (fun t => m.Stkcd == t.Stkcd && m.Trdmnt == t.Trdmnt) = []) :
    ∃ r ∈ create_merged_monthly_dataset d, r.Stkcd = m.Stkcd ∧ r.Trdmnt = m.Trdmnt ∧
      r.Msmvosd = m.Msmvosd * 1000 ∧ r.ToverOsM = none := by
  have h1 : (⟨m.Stkcd, m.Trdmnt, m.Msmvosd, none⟩ : Row1) ∈
      mergeTurnover d.monthly_trade d.turnover :=
    leftMerge_noMatch_mem hm hno
  obtain ⟨p2, hp2, a1, a2, a3, a4⟩ := mergeIndustry_forward d.industry h1
  obtain ⟨q, hq, b1, b2, b3, b4⟩ := mergeBasic_forward d.basic_info hp2
  refine ⟨scaleRow q, mem_create_iff.mpr ⟨q, hq, rfl⟩, b1.trans a1, b2.trans a2, ?_,
    b4.trans a4⟩
  show q.Msmvosd * 1000 = m.Msmvosd * 1000
  rw [b3.trans a3]

/-- Witness for C4: in `sampleD`, security 600000 has no turnover row for
2023-01 yet keeps its panel row. -/
theorem C4_left_join_null_safety_witness :
    ∃ r ∈ create_merged_monthly_dataset sampleD, r.Stkcd = "600000" ∧ r.Trdmnt = 202301 ∧
      r.Msmvosd = 800 * 1000 ∧ r.ToverOsM = none :=
  C4_left_join_null_safety sampleD ⟨"600000", 202301, 800⟩ (by decide) (by decide)

/-- C8: the builder never mutates its inputs.  Run as a heap transformer,
the five input tables (heap cells 0-4) are untouched; the single in-place
write of line 130 lands on the fresh cell (reference 13) allocated by the
`sort_values` of line 127, which holds exactly the returned panel. -/
theorem C8_no_input_mutation (d : DataDict) :
    (runCreateMerged d).1.take 5 = initHeap d ∧
    (runCreateMerged d).2 = 13 ∧
    (runCreateMerged d).1[(runCreateMerged d).2]? =
      some (Frame.panelT (create_merged_monthly_dataset d)) :=
  ⟨rfl, rfl, rfl⟩

/-- C9: the daily trade table has no influence on the merged monthly
panel. -/
theorem C9_daily_trade_irrelevant (d : DataDict) (x y : List DailyRow) :
    create_merged_monthly_dataset { d with daily_trade := x } =
      create_merged_monthly_dataset { d with daily_trade := y } := rfl

/-- C1 (counterexample): with a duplicated turnover key, the output has
more rows than the monthly trade table, so the row-count invariant does
not hold for arbitrary inputs. -/
theorem C1_row_count_counterexample :
    (create_merged_monthly_dataset dupTurnoverD).length ≠
      dupTurnoverD.monthly_trade.length := by
  decide

/-- C1 (amended): when each monthly trade key matches at most one turnover
row and the basic-info identifiers are pairwise distinct, the panel has
exactly one row per monthly trade row. -/
theorem C1_row_count_amended (d : DataDict)
    (hturnover : ∀ m ∈ d.monthly_trade,
      (d.turnover.filter (fun t => m.Stkcd == t.Stkcd && m.Trdmnt == t.Trdmnt)).length ≤ 1)
    (hbasic : (d.basic_info.map (fun b => b.Stkcd)).Nodup) :
    (create_merged_monthly_dataset d).length = d.monthly_trade.length := by
  unfold create_merged_monthly_dataset mergedBeforeScale sortPanel mergeBasic
    mergeIndustry mergeTurnover
  rw [List.length_map, List.length_insertionSort,
    length_leftMerge (fun a _ =>
      filter_key_length_le_of_nodup (fun b => b.Stkcd) d.basic_info hbasic a.Stkcd),
    length_leftMerge (fun a _ => latestIndustry_filter_length_le d.industry a.Stkcd),
    length_leftMerge hturnover]

/-- Witness for the amended C1 at `sampleD`. -/
theorem C1_row_count_amended_witness :
    (create_merged_monthly_dataset sampleD).length = sampleD.monthly_trade.length :=
  C1_row_count_amended sampleD (by decide) (by decide)

/-- C3: an identifier whose strictly latest industry row is `i` shows
`i`'s industry code and name in every one of its output rows. -/
theorem C3_latest_industry (d : DataDict) (s : String) (i : IndustryRow)
    (hi : i ∈ d.industry) (hs : i.Stkcd = s)
    (hmax : ∀ j ∈ d.industry, j.Stkcd = s → j ≠ i → j.Listdt < i.Listdt) :
    ∀ r ∈ create_merged_monthly_dataset d, r.Stkcd = s →
      r.Nnindcd = some i.Nnindcd ∧ r.Nnindnme = some i.Nnindnme := by
  intro r hr hrs
  obtain ⟨q, hq, rfl⟩ := mem_create_iff.mp hr
  obtain ⟨p2, hp2, e1, -, -, -, e5, e6⟩ := mergeBasic_proj hq
  have hqs : q.Stkcd = s := hrs
  have hps : p2.Stkcd = s := e1.symm.trans hqs
  have hind := mergeIndustry_nnind_of_unique hp2 hps (latestIndustry_filter_eq hi hs hmax)
  exact ⟨e5.trans hind.1, e6.trans hind.2⟩

/-- Witness for C3: in `sampleD`, security 000001 has rows dated 2010 and
2020; its panel row shows the 2020 code `J67`. -/
theorem C3_latest_industry_witness :
    samplePanelRow0 ∈ create_merged_monthly_dataset sampleD ∧
    samplePanelRow0.Nnindcd = some sampleJ67.Nnindcd ∧
    samplePanelRow0.Nnindnme = some sampleJ67.Nnindnme :=
  ⟨by decide,
    C3_latest_industry sampleD "000001" sampleJ67 (by decide) (by decide) (by decide)
      samplePanelRow0 (by decide) (by decide)⟩

/-- C5: identifier cells are read verbatim under the declared string
dtype (leading zeros survive), the industry-code cell likewise, and the
panel builder only ever copies identifier and industry-code strings from
its input tables into the output. -/
theorem C5_identifier_preservation (token : String) (d : DataDict) (r : PanelRow)
    (hr : r ∈ create_merged_monthly_dataset d) :
    loadStkcdCell token = Cell.str token ∧ loadNnindcdCell token = Cell.str token ∧
    (∃ m ∈ d.monthly_trade, r.Stkcd = m.Stkcd) ∧
    ((r.Nnindcd = none ∧ r.Nnindnme = none) ∨
      ∃ i ∈ d.industry, r.Nnindcd = some i.Nnindcd ∧ r.Nnindnme = some i.Nnindnme) := by
  refine ⟨rfl, rfl, ?_, ?_⟩
  · obtain ⟨q, hq, rfl⟩ := mem_create_iff.mp hr
    obtain ⟨m, hm, e1, -, -⟩ := mergeChain_anchor hq
    exact ⟨m, hm, e1⟩
  · obtain ⟨q, hq, rfl⟩ := mem_create_iff.mp hr
    obtain ⟨p2, hp2, -, -, -, -, e5, e6⟩ := mergeBasic_proj hq
    rcases mergeIndustry_nnind_provenance hp2 with ⟨h1, h2⟩ | ⟨i, hi, h1, h2⟩
    · exact Or.inl ⟨e5.trans h1, e6.trans h2⟩
    · exact Or.inr ⟨i, hi, e5.trans h1, e6.trans h2⟩

/-- Witness for C5 at the zero-padded identifier `000001`. -/
theorem C5_identifier_preservation_witness :
    loadStkcdCell "000001" = Cell.str "000001" ∧
    loadNnindcdCell "000001" = Cell.str "000001" ∧
    (∃ m ∈ sampleD.monthly_trade, samplePanelRow0.Stkcd = m.Stkcd) ∧
    ((samplePanelRow0.Nnindcd = none ∧ samplePanelRow0.Nnindnme = none) ∨
      ∃ i ∈ sampleD.industry, samplePanelRow0.Nnindcd = some i.Nnindcd ∧
        samplePanelRow0.Nnindnme = some i.Nnindnme) :=
  C5_identifier_preservation "000001" sampleD samplePanelRow0 (by decide)

/-- C6: the output is non-decreasing in the `(Stkcd, Trdmnt)` order, and
the sort is stable: within every key class the pre-sort relative order of
the merged table is preserved. -/
theorem C6_sorted_and_stable (d : DataDict) :
    (create_merged_monthly_dataset d).Pairwise panelLE ∧
    ∀ (s : String) (t : Nat),
      (mergedBeforeScale d).filter (fun r => r.Stkcd == s && r.Trdmnt == t) =
        (mergeBasic (mergeIndustry (mergeTurnover d.monthly_trade d.turnover)
          d.industry) d.basic_info).filter (fun r => r.Stkcd == s && r.Trdmnt == t) := by
  constructor
  · unfold create_merged_monthly_dataset mergedBeforeScale sortPanel
    exact List.Pairwise.map scaleRow (fun a b h => h)
      (List.sorted_insertionSort panelLE _)
  · intro s t
    unfold mergedBeforeScale sortPanel
    apply filter_insertionSort
    intro a b ha hb
    simp only [Bool.and_eq_true, beq_iff_eq] at ha hb
    exact Or.inr ⟨ha.1.trans hb.1.symm, by rw [ha.2, hb.2]⟩

/-- C7: `load_all` fails with `FileNotFoundError` exactly when one of the
five expected files is absent (the error propagates), and on success
returns the mapping with exactly the five dataset keys. -/
theorem C7_load_all_contract (fs : FileSystem) :
    ((fs.basic_info = none ∨ fs.csrc2012_industry = none ∨ fs.daily_trade = none ∨
        fs.monthly_trade = none ∨ fs.turnover_monthly = none) ↔
      ∃ name, load_all fs = Except.error (LoadError.fileNotFound name)) ∧
    (∀ b i dl m t, fs.basic_info = some b → fs.csrc2012_industry = some i →
      fs.daily_trade = some dl → fs.monthly_trade = some m →
      fs.turnover_monthly = some t →
      load_all fs = Except.ok ⟨b, i, dl, m, t⟩) := by
  obtain ⟨ob, oi, od, om, ot⟩ := fs
  constructor
  · cases ob <;> cases oi <;> cases od <;> cases om <;> cases ot <;>
      simp [load_all, readCsvFile, Bind.bind, Except.bind, Pure.pure, Except.pure]
  · rintro b i dl m t rfl rfl rfl rfl rfl
    rfl

/-- Witness for C7: on a directory with all five files present, the load
succeeds with the five tables. -/
theorem C7_load_all_contract_witness :
    load_all sampleFS = Except.ok
      ⟨sampleD.basic_info, sampleD.industry, sampleD.daily_trade,
       sampleD.monthly_trade, sampleD.turnover⟩ :=
  (C7_load_all_contract sampleFS).2 _ _ _ _ _ rfl rfl rfl rfl rfl

end Loader

/-! ### Sanity evaluations -/

/-- The spec's end-to-end scenario: one security, industry changed from
code 10 (2005) to code 20 (2015), one monthly trade row with market value
500 (thousands) and turnover 5: the single output row carries market
value 500000, the 2015 industry code, and the basic-info fields. -/
theorem end_to_end_scenario :
    Loader.create_merged_monthly_dataset
      { basic_info := [⟨"A1", 1, 20000101⟩]
        industry := [⟨"A1", "10", "ten", 20050101⟩, ⟨"A1", "20", "twenty", 20150101⟩]
        daily_trade := []
        monthly_trade := [⟨"A1", 202103, 500⟩]
        turnover := [⟨"A1", 202103, 5⟩] } =
      [⟨"A1", 202103, 500000, some 5, some "20", some "twenty", some 1,
        some 20000101⟩] := by
  decide

/-- Full evaluation of the sample dictionary: sorted by identifier, with
null turnover for the unmatched row. -/
theorem sampleD_eval :
    Loader.create_merged_monthly_dataset Loader.sampleD =
      [Loader.samplePanelRow0,
       ⟨"600000", 202301, 800000, none, some "J66", some "bank", some 1,
        some 19991110⟩] := by
  decide
